import Mathlib

/-!
# Verification of the lexical-component editor core

A shallow embedding of the HTML ⇄ node-tree bridge, the source-view
override mechanism, the page-wide editor registry, the toolbar token
dispatch, the custom-element attribute parsing, and the StyleSheet node
JSON serialization of the `lexical-component` repository.

Pure functions of the repository (`cleanExportedHtml`,
`applySourceChanges`, `setLexicalEditorContent`,
`insertIntoActiveLexicalEditor`, the `LoadContentPlugin` /
`SyncContentPlugin` bodies, the toolbar's `tools` dispatch, the
custom element `connectedCallback`, and `StyleSheetNode`'s
`importJSON` / `exportJSON`) are translated directly from the source.
Browser and engine collaborators that the repository calls
(`DOMParser`, `$generateNodesFromDOM`, `$generateHtmlFromNodes`,
`JSON.parse`) are modelled from the spec, as marked on each definition.

Everything is executable so that theorems can be checked on concrete
inputs.
-/

set_option maxHeartbeats 1600000

namespace LexicalComponent

/-! ## CSS style declarations

Style attributes are modelled structurally as ordered lists of
`(property, value)` declarations, which captures HTML equality
"up to attribute order and whitespace" as the spec's export contract
requires; parsing and printing of the textual form are defined below. -/

/-- A single CSS declaration, e.g. `("white-space", "pre-wrap")`. -/
abbrev CssDecl := String × String

/-- The whitespace-preservation marker Lexical wraps exported text in
(`white-space: pre-wrap`), stripped by `cleanExportedHtml`. -/
def markerDecl : CssDecl := ("white-space", "pre-wrap")

/-- Model of `style.replace(/white-space:\s*pre-wrap;?\s*_/g, '')` in
`cleanExportedHtml`: remove every `white-space: pre-wrap` declaration,
keep everything else. -/
def filterMarker (l : List CssDecl) : List CssDecl :=
  l.filter (fun d => ¬ (d.1 = "white-space" ∧ d.2 = "pre-wrap"))

theorem filterMarker_idem (l : List CssDecl) :
    filterMarker (filterMarker l) = filterMarker l := by
  simp [filterMarker, List.filter_filter]

theorem filterMarker_marker_cons (l : List CssDecl) :
    filterMarker (markerDecl :: l) = filterMarker l := by
  simp [filterMarker, markerDecl]

/-! ## The DOM model

A parsed HTML node. `classes`, `dir` and `style` are kept structurally
(the attributes `cleanExportedHtml` inspects); all other attributes ride
in `attrs`. -/

inductive Dom where
  | text (s : String)
  | elem (tag : String) (classes : List String) (dir : Option String)
      (style : List CssDecl) (attrs : List (String × String))
      (children : List Dom)
  deriving Repr

mutual

def domDecEq : (a b : Dom) → Decidable (a = b)
  | .text s, .text t =>
    if h : s = t then .isTrue (by rw [h])
    else .isFalse (fun he => by cases he; exact h rfl)
  | .text _, .elem _ _ _ _ _ _ => .isFalse (fun he => by cases he)
  | .elem _ _ _ _ _ _, .text _ => .isFalse (fun he => by cases he)
  | .elem t1 c1 d1 s1 a1 ch1, .elem t2 c2 d2 s2 a2 ch2 =>
    match domForestDecEq ch1 ch2 with
    | .isTrue hch =>
      if h : t1 = t2 ∧ c1 = c2 ∧ d1 = d2 ∧ s1 = s2 ∧ a1 = a2 then
        .isTrue (by
          obtain ⟨h1, h2, h3, h4, h5⟩ := h
          rw [h1, h2, h3, h4, h5, hch])
      else .isFalse (fun he => by cases he; exact h ⟨rfl, rfl, rfl, rfl, rfl⟩)
    | .isFalse hch => .isFalse (fun he => by cases he; exact hch rfl)
  termination_by structural a => a

def domForestDecEq : (a b : List Dom) → Decidable (a = b)
  | [], [] => .isTrue rfl
  | [], _ :: _ => .isFalse (fun he => by cases he)
  | _ :: _, [] => .isFalse (fun he => by cases he)
  | x :: xs, y :: ys =>
    match domDecEq x y with
    | .isTrue h1 =>
      match domForestDecEq xs ys with
      | .isTrue h2 => .isTrue (by rw [h1, h2])
      | .isFalse h2 => .isFalse (fun he => by cases he; exact h2 rfl)
    | .isFalse h1 => .isFalse (fun he => by cases he; exact h1 rfl)
  termination_by structural a => a

end

instance : DecidableEq Dom := domDecEq

/-! ## HTML text ⇄ DOM: parser and printer

Modelled from the spec: the browser's `DOMParser` /
`Element.innerHTML` pair, which the repository uses for every
conversion between HTML text and a DOM.  The parser handles the
fragment language the editor emits and consumes: elements with
double-quoted attributes, character entities, raw-text `style` /
`script` elements, and comments. -/

/-- Decode the character entities the printer emits. -/
def decodeEntities : List Char → List Char
  | [] => []
  | '&' :: 'a' :: 'm' :: 'p' :: ';' :: rest => '&' :: decodeEntities rest
  | '&' :: 'l' :: 't' :: ';' :: rest => '<' :: decodeEntities rest
  | '&' :: 'g' :: 't' :: ';' :: rest => '>' :: decodeEntities rest
  | '&' :: 'q' :: 'u' :: 'o' :: 't' :: ';' :: rest => '"' :: decodeEntities rest
  | c :: rest => c :: decodeEntities rest

def isHtmlSpace (c : Char) : Bool :=
  c = ' ' ∨ c = '\n' ∨ c = '\t' ∨ c = '\r'

def skipSpaces : List Char → List Char
  | [] => []
  | c :: rest => if isHtmlSpace c then skipSpaces rest else c :: rest

/-- Split on a separator character, keeping empty pieces
(`String.prototype.split` semantics). -/
def splitOnChar (sep : Char) : List Char → List (List Char)
  | [] => [[]]
  | c :: rest =>
    let r := splitOnChar sep rest
    if c = sep then [] :: r
    else match r with
      | [] => [[c]]
      | p :: ps => (c :: p) :: ps

/-- Split wherever the predicate holds, keeping empty pieces. -/
def splitOnPredC (p : Char → Bool) : List Char → List (List Char)
  | [] => [[]]
  | c :: rest =>
    let r := splitOnPredC p rest
    if p c then [] :: r
    else match r with
      | [] => [[c]]
      | q :: qs => (c :: q) :: qs

/-- `trim`: drop leading and trailing whitespace. -/
def trimC (cs : List Char) : List Char :=
  ((skipSpaces cs.reverse).reverse : List Char) |> skipSpaces

def toLowerC (cs : List Char) : List Char := cs.map Char.toLower

/-- Join strings with a separator. -/
def joinWith (sep : String) : List String → String
  | [] => ""
  | [s] => s
  | s :: rest => s ++ sep ++ joinWith sep rest

/-- `startsWithC pre cs` is true when `pre` is an initial segment of `cs`. -/
def startsWithC : List Char → List Char → Bool
  | [], _ => true
  | _ :: _, [] => false
  | p :: ps, c :: cs => p = c ∧ startsWithC ps cs

/-- JS `String.prototype.replace` with a global literal pattern:
one left-to-right scan of the original text, matches never overlap,
replacements are not rescanned. -/
def replaceAllF (pat repl : List Char) : Nat → List Char → List Char
  | 0, cs => cs
  | _ + 1, [] => []
  | fuel + 1, c :: rest =>
    if pat ≠ [] ∧ startsWithC pat (c :: rest) then
      repl ++ replaceAllF pat repl fuel ((c :: rest).drop pat.length)
    else c :: replaceAllF pat repl fuel rest

def replaceAllC (pat repl cs : List Char) : List Char :=
  replaceAllF pat repl (cs.length + 1) cs

/-- Take characters while `p` holds; returns the taken prefix and the rest. -/
def takeWhileC (p : Char → Bool) : List Char → List Char × List Char
  | [] => ([], [])
  | c :: rest =>
    if p c then
      let (a, b) := takeWhileC p rest
      (c :: a, b)
    else ([], c :: rest)

/-- Split a string on HTML whitespace, dropping empty pieces
(the browser's `classList` view of a `class` attribute). -/
def splitClasses (s : String) : List String :=
  (((splitOnPredC isHtmlSpace s.data).map String.mk) :
    List String).filter (fun t => t ≠ "")

/-- Split at the first `:` — `prop` before, `value` after. -/
def breakColon : List Char → Option (List Char × List Char)
  | [] => none
  | c :: rest =>
    if c = ':' then some ([], rest)
    else (breakColon rest).map (fun r => (c :: r.1, r.2))

/-- Parse one textual CSS declaration `prop: value`. -/
def parseDecl (s : List Char) : Option CssDecl :=
  match breakColon s with
  | none => none
  | some (p, v) =>
    let prop := String.mk (trimC p)
    if prop = "" then none else some (prop, String.mk (trimC v))

/-- Parse a `style` attribute into declarations. -/
def parseStyleAttr (s : String) : List CssDecl :=
  (splitOnChar ';' s.data).filterMap parseDecl

/-- Build a `Dom.elem` from a tag and its raw attribute list, sorting
`class` / `dir` / `style` into their structural fields. -/
def mkElem (tag : String) (rawAttrs : List (String × String))
    (children : List Dom) : Dom :=
  let classes := (rawAttrs.filter (fun a => a.1 = "class")).foldl
    (fun acc a => acc ++ splitClasses a.2) []
  let dir := (rawAttrs.find? (fun a => a.1 = "dir")).map (·.2)
  let style := (rawAttrs.filter (fun a => a.1 = "style")).foldl
    (fun acc a => acc ++ parseStyleAttr a.2) []
  let others := rawAttrs.filter
    (fun a => a.1 ≠ "class" ∧ a.1 ≠ "dir" ∧ a.1 ≠ "style")
  Dom.elem tag classes dir style others children

/-- Parse the attribute region of a start tag, up to and including `>`.
Only double-quoted and unquoted values occur in this component's HTML. -/
def parseAttrs (fuel : Nat) (cs : List Char) :
    List (String × String) × List Char :=
  match fuel with
  | 0 => ([], cs)
  | fuel + 1 =>
    match skipSpaces cs with
    | [] => ([], [])
    | '>' :: rest => ([], rest)
    | '/' :: rest => parseAttrs fuel rest
    | cs' =>
      let (nm, cs1) := takeWhileC
        (fun c => ¬ isHtmlSpace c ∧ c ≠ '=' ∧ c ≠ '>' ∧ c ≠ '/') cs'
      let name := String.mk nm
      if name = "" then parseAttrs fuel (cs'.drop 1)
      else
        match skipSpaces cs1 with
        | '=' :: cs3 =>
          match skipSpaces cs3 with
          | '"' :: cs5 =>
            let (v, cs6) := takeWhileC (fun c => c ≠ '"') cs5
            let (rest, tail) := parseAttrs fuel (cs6.drop 1)
            ((name, String.mk (decodeEntities v)) :: rest, tail)
          | cs4 =>
            let (v, cs6) := takeWhileC
              (fun c => ¬ isHtmlSpace c ∧ c ≠ '>') cs4
            let (rest, tail) := parseAttrs fuel cs6
            ((name, String.mk v) :: rest, tail)
        | cs2 =>
          let (rest, tail) := parseAttrs fuel cs2
          ((name, "") :: rest, tail)

/-- Scan raw text content of a `style`/`script` element, stopping before
its end tag.  Returns the raw text and the rest starting at `</`. -/
def takeRawText (tag : List Char) : List Char → List Char × List Char
  | [] => ([], [])
  | c :: rest =>
    if c = '<' ∧ startsWithC ('/' :: tag) rest then ([], c :: rest)
    else
      let (a, b) := takeRawText tag rest
      (c :: a, b)

/-- Drop up to and including the next `>`. -/
def dropPastGt : List Char → List Char
  | [] => []
  | '>' :: rest => rest
  | _ :: rest => dropPastGt rest

def isTagChar (c : Char) : Bool := c.isAlpha ∨ c.isDigit

/-- Element tags whose content the HTML parser treats as raw text. -/
def rawTextTags : List String := ["style", "script"]

/-- Tags that never take a closing tag. -/
def voidTags : List String := ["br", "hr", "img", "input", "meta", "link"]

/-- Parse a run of sibling nodes.  Stops (without consuming) at a
closing tag or at the end of input.  Every recursive step consumes at
least one character, so `fuel := length + 1` always suffices. -/
def parseNodes (fuel : Nat) (cs : List Char) : List Dom × List Char :=
  match fuel with
  | 0 => ([], cs)
  | fuel + 1 =>
    match cs with
    | [] => ([], [])
    | '<' :: '/' :: rest => ([], '<' :: '/' :: rest)
    | '<' :: '!' :: rest =>
      parseNodes fuel (dropPastGt rest)
    | '<' :: c :: rest =>
      if isTagChar c then
        let (tg, cs1) := takeWhileC isTagChar (c :: rest)
        let tag := String.mk (toLowerC tg)
        let (attrs, cs2) := parseAttrs fuel cs1
        if voidTags.contains tag then
          let (sibs, tail) := parseNodes fuel cs2
          (mkElem tag attrs [] :: sibs, tail)
        else if rawTextTags.contains tag then
          let (raw, cs3) := takeRawText tag.data cs2
          let (sibs, tail) := parseNodes fuel (dropPastGt cs3)
          (mkElem tag attrs [Dom.text (String.mk raw)] :: sibs, tail)
        else
          let (children, cs3) := parseNodes fuel cs2
          let cs4 := match cs3 with
            | '<' :: '/' :: cs5 => dropPastGt cs5
            | other => other
          let (sibs, tail) := parseNodes fuel cs4
          (mkElem tag attrs children :: sibs, tail)
      else
        let (txt, cs1) := takeWhileC (fun ch => ch ≠ '<') (c :: rest)
        let (sibs, tail) := parseNodes fuel cs1
        (Dom.text (String.mk (decodeEntities ('<' :: txt))) :: sibs, tail)
    | c :: rest =>
      let (txt, cs1) := takeWhileC (fun ch => ch ≠ '<') (c :: rest)
      let (sibs, tail) := parseNodes fuel cs1
      (Dom.text (String.mk (decodeEntities txt)) :: sibs, tail)
  termination_by structural fuel

/-- Fragment parsing, as done by `div.innerHTML = s` (used by
`StyleSheetNode._createElement`): no relocation of `<style>` elements. -/
def parseFragment (s : String) : List Dom :=
  (parseNodes (s.length + 1) s.data).1

/-- A parsed `text/html` document, split as `DOMParser` delivers it:
metadata `<style>` elements that appear before any body content are
hoisted into `head`; everything else is the `body` forest. -/
structure HtmlDoc where
  headStyles : List Dom
  body : List Dom
  deriving Repr

def isStyleElem : Dom → Bool
  | .elem "style" _ _ _ _ _ => true
  | _ => false

/-- Modelled from the spec: `DOMParser.parseFromString(s, 'text/html')`.
Standard HTML parsing moves `<style>` elements that precede any body
content into the document head ("breaking the body-order assumption the
converter relies on", §4.2); later `<style>` elements stay in the body. -/
def parseDocument (s : String) : HtmlDoc :=
  let forest := parseFragment s
  let headStyles := forest.takeWhile isStyleElem
  let body := forest.dropWhile isStyleElem
  ⟨headStyles, body⟩

/-! ## Printing a DOM back to HTML text (`innerHTML` serialization) -/

def escTextC : List Char → List Char
  | [] => []
  | '&' :: rest => '&' :: 'a' :: 'm' :: 'p' :: ';' :: escTextC rest
  | '<' :: rest => '&' :: 'l' :: 't' :: ';' :: escTextC rest
  | '>' :: rest => '&' :: 'g' :: 't' :: ';' :: escTextC rest
  | c :: rest => c :: escTextC rest

def escText (s : String) : String := String.mk (escTextC s.data)

def escAttrC : List Char → List Char
  | [] => []
  | '&' :: rest => '&' :: 'a' :: 'm' :: 'p' :: ';' :: escAttrC rest
  | '"' :: rest => '&' :: 'q' :: 'u' :: 'o' :: 't' :: ';' :: escAttrC rest
  | c :: rest => c :: escAttrC rest

def escAttr (s : String) : String := String.mk (escAttrC s.data)

/-- Serialize a declaration list the way `style.cssText` renders it. -/
def printStyle (l : List CssDecl) : String :=
  joinWith " " (l.map (fun d => d.1 ++ ": " ++ d.2 ++ ";"))

mutual

/-- `outerHTML` of one node. -/
def printDom : Dom → String
  | .text s => escText s
  | .elem tag classes dir style attrs children =>
    let cls := if classes = [] then ""
      else " class=\"" ++ escAttr (joinWith " " classes) ++ "\""
    let dr := match dir with
      | none => ""
      | some d => " dir=\"" ++ escAttr d ++ "\""
    let st := if style = [] then ""
      else " style=\"" ++ escAttr (printStyle style) ++ "\""
    let rest := joinWith "" (attrs.map
      (fun a => " " ++ a.1 ++ "=\"" ++ escAttr a.2 ++ "\""))
    let inner :=
      if rawTextTags.contains tag then printRawChildren children
      else printForest children
    "<" ++ tag ++ cls ++ dr ++ st ++ rest ++ ">" ++ inner ++ "</" ++ tag ++ ">"
  termination_by structural d => d

/-- Children of a raw-text element print without entity escaping. -/
def printRawChildren : List Dom → String
  | [] => ""
  | .text s :: ds => s ++ printRawChildren ds
  | d :: ds => printDom d ++ printRawChildren ds
  termination_by structural f => f

/-- `innerHTML` of a forest. -/
def printForest : List Dom → String
  | [] => ""
  | d :: ds => printDom d ++ printForest ds
  termination_by structural f => f

end

/-! ## The Lexical node tree

Node kinds covered by the embedding: the spec's Text (content, format
bitmask, inline style), the block Elements the toolbar and the custom
nodes of `CustomFormatNodes.jsx` produce (Paragraph, Heading 1–6,
Quote, Address, Preformatted, Div), and the StyleSheet decorator, which
stores the full `outerHTML` string of its `<style>` element
(`__styleOuterHtml` in the source). -/

inductive HLevel where
  | h1 | h2 | h3 | h4 | h5 | h6
  deriving DecidableEq, Repr

inductive ElemKind where
  | paragraph
  | heading (lvl : HLevel)
  | quote
  | address
  | preformatted
  | divE
  deriving DecidableEq, Repr

inductive LexNode where
  | text (content : String) (format : Nat) (style : List CssDecl)
  | element (kind : ElemKind) (children : List LexNode)
  | styleSheet (styleOuterHtml : String)
  deriving Repr

mutual

def lexDecEq : (a b : LexNode) → Decidable (a = b)
  | .text c1 f1 s1, .text c2 f2 s2 =>
    if h : c1 = c2 ∧ f1 = f2 ∧ s1 = s2 then
      .isTrue (by obtain ⟨h1, h2, h3⟩ := h; rw [h1, h2, h3])
    else .isFalse (fun he => by cases he; exact h ⟨rfl, rfl, rfl⟩)
  | .text _ _ _, .element _ _ => .isFalse (fun he => by cases he)
  | .text _ _ _, .styleSheet _ => .isFalse (fun he => by cases he)
  | .element _ _, .text _ _ _ => .isFalse (fun he => by cases he)
  | .element k1 ch1, .element k2 ch2 =>
    match lexForestDecEq ch1 ch2 with
    | .isTrue hch =>
      if h : k1 = k2 then .isTrue (by rw [h, hch])
      else .isFalse (fun he => by cases he; exact h rfl)
    | .isFalse hch => .isFalse (fun he => by cases he; exact hch rfl)
  | .element _ _, .styleSheet _ => .isFalse (fun he => by cases he)
  | .styleSheet _, .text _ _ _ => .isFalse (fun he => by cases he)
  | .styleSheet _, .element _ _ => .isFalse (fun he => by cases he)
  | .styleSheet s1, .styleSheet s2 =>
    if h : s1 = s2 then .isTrue (by rw [h])
    else .isFalse (fun he => by cases he; exact h rfl)
  termination_by structural a => a

def lexForestDecEq : (a b : List LexNode) → Decidable (a = b)
  | [], [] => .isTrue rfl
  | [], _ :: _ => .isFalse (fun he => by cases he)
  | _ :: _, [] => .isFalse (fun he => by cases he)
  | x :: xs, y :: ys =>
    match lexDecEq x y with
    | .isTrue h1 =>
      match lexForestDecEq xs ys with
      | .isTrue h2 => .isTrue (by rw [h1, h2])
      | .isFalse h2 => .isFalse (fun he => by cases he; exact h2 rfl)
    | .isFalse h1 => .isFalse (fun he => by cases he; exact h1 rfl)
  termination_by structural a => a

end

instance : DecidableEq LexNode := lexDecEq

/-- `$isElementNode(node) || $isDecoratorNode(node)`: true for the
Element kinds and for the StyleSheet decorator, false for Text. -/
def isElementOrDecorator : LexNode → Bool
  | .text _ _ _ => false
  | .element _ _ => true
  | .styleSheet _ => true

/-! ## Import: `$generateNodesFromDOM` and the root-append loop -/

/-- Inline conversion context: format wrappers and inline style
accumulated from ancestor `strong` / `em` / `span` elements. -/
structure InlineCtx where
  bold : Bool
  italic : Bool
  style : List CssDecl
  deriving DecidableEq, Repr

def ictx0 : InlineCtx := ⟨false, false, []⟩

/-- Lexical's format bitmask for a context (IS_BOLD = 1, IS_ITALIC = 2). -/
def fmtOf (ctx : InlineCtx) : Nat :=
  (if ctx.bold then 1 else 0) + (if ctx.italic then 2 else 0)

mutual

/-- Modelled from the spec: the generic conversion of
`$generateNodesFromDOM` (@lexical/html) restricted to the node kinds of
this embedding, with the converters `CustomFormatNodes.jsx` registers
for `address` / `pre` / `div`.  The library hard-codes
`IGNORE_TAGS = Set(['STYLE', 'SCRIPT'])`, so `style` and `script`
elements are categorically excluded and produce no node (see the
comment at `StyleSheetNode.importDOM` in the source); unknown elements
contribute their converted children. -/
def convertNode (ctx : InlineCtx) : Dom → List LexNode
  | .text s => [.text s (fmtOf ctx) ctx.style]
  | .elem tag _ _ sty _ children =>
    match tag with
    | "style" => []
    | "script" => []
    | "p" => [.element .paragraph (convertForest ictx0 children)]
    | "h1" => [.element (.heading .h1) (convertForest ictx0 children)]
    | "h2" => [.element (.heading .h2) (convertForest ictx0 children)]
    | "h3" => [.element (.heading .h3) (convertForest ictx0 children)]
    | "h4" => [.element (.heading .h4) (convertForest ictx0 children)]
    | "h5" => [.element (.heading .h5) (convertForest ictx0 children)]
    | "h6" => [.element (.heading .h6) (convertForest ictx0 children)]
    | "blockquote" => [.element .quote (convertForest ictx0 children)]
    | "address" => [.element .address (convertForest ictx0 children)]
    | "pre" => [.element .preformatted (convertForest ictx0 children)]
    | "div" => [.element .divE (convertForest ictx0 children)]
    | "strong" => convertForest { ctx with bold := true } children
    | "b" => convertForest { ctx with bold := true } children
    | "em" => convertForest { ctx with italic := true } children
    | "i" => convertForest { ctx with italic := true } children
    | "span" => convertForest { ctx with style := ctx.style ++ sty } children
    | _ => convertForest ctx children
  termination_by structural d => d

def convertForest (ctx : InlineCtx) : List Dom → List LexNode
  | [] => []
  | d :: ds => convertNode ctx d ++ convertForest ctx ds
  termination_by structural f => f

end

/-- `$generateNodesFromDOM(editor, dom)` on a body forest. -/
def generateNodesFromDOM (body : List Dom) : List LexNode :=
  convertForest ictx0 body

/-- The repository's root-append loop (`LoadContentPlugin`,
`setLexicalEditorContent`, `insertIntoActiveLexicalEditor`'s append
branch and `applySourceChanges` all repeat it verbatim): element and
decorator nodes are appended as-is, every other (inline) node is
wrapped in its own fresh paragraph. -/
def appendWrapped : List LexNode → List LexNode
  | [] => []
  | n :: ns =>
    (if isElementOrDecorator n then n else .element .paragraph [n])
      :: appendWrapped ns

/-- The import pipeline every content-population path other than the
source apply uses: document parse (hoisted head styles are lost),
generic conversion, paragraph-wrap append loop. -/
def importFromString (html : String) : List LexNode :=
  appendWrapped (generateNodesFromDOM (parseDocument html).body)

/-! ## Export: `$generateHtmlFromNodes` and `cleanExportedHtml` -/

/-- DOM tag each element kind renders as. -/
def tagOfKind : ElemKind → String
  | .paragraph => "p"
  | .heading .h1 => "h1"
  | .heading .h2 => "h2"
  | .heading .h3 => "h3"
  | .heading .h4 => "h4"
  | .heading .h5 => "h5"
  | .heading .h6 => "h6"
  | .quote => "blockquote"
  | .address => "address"
  | .preformatted => "pre"
  | .divE => "div"

/-- Theme classes emitted on export.  Paragraphs and headings carry the
`lexical-` theme class configured in `LexicalEditor.jsx`; the theme maps
no class for quotes; the custom nodes' `exportDOM` builds a bare element
(`document.createElement('address')` etc. in `CustomFormatNodes.jsx`). -/
def classOfKind : ElemKind → List String
  | .paragraph => ["lexical-paragraph"]
  | .heading .h1 => ["lexical-h1"]
  | .heading .h2 => ["lexical-h2"]
  | .heading .h3 => ["lexical-h3"]
  | .heading .h4 => ["lexical-h4"]
  | .heading .h5 => ["lexical-h5"]
  | .heading .h6 => ["lexical-h6"]
  | .quote => []
  | .address => []
  | .preformatted => []
  | .divE => []

/-- Export direction attribute: the built-in block elements serialize
with the default left-to-right `dir`; the custom nodes' `exportDOM`
creates a bare element with no attributes. -/
def dirOfKind : ElemKind → Option String
  | .address => none
  | .preformatted => none
  | .divE => none
  | _ => some "ltr"

/-- Modelled from the spec: `$generateHtmlFromNodes` export of one text
node — format wrappers (`<strong>` / `<em>` with their theme classes)
around the whitespace-preservation `<span>` Lexical always emits
("wraps text in `<span style="white-space: pre-wrap;">`",
`cleanExportedHtml`'s doc comment), whose style carries the node's own
inline style after the marker. -/
def exportText (c : String) (f : Nat) (sty : List CssDecl) : Dom :=
  let base := Dom.elem "span" [] none (markerDecl :: sty) [] [Dom.text c]
  let w1 := if f.testBit 1
    then Dom.elem "em" ["lexical-italic"] none [] [] [base] else base
  if f.testBit 0
    then Dom.elem "strong" ["lexical-bold"] none [] [] [w1] else w1

mutual

/-- Modelled from the spec: `$generateHtmlFromNodes` on one node.
`StyleSheetNode.exportDOM` reconstructs the stored `outerHTML` via
`div.innerHTML = this.__styleOuterHtml; return div.firstChild ||
document.createElement('style')`. -/
def generateHtmlNode : LexNode → Dom
  | .text c f sty => exportText c f sty
  | .element k ch =>
    .elem (tagOfKind k) (classOfKind k) (dirOfKind k) [] []
      (generateHtmlForest ch)
  | .styleSheet s =>
    (parseFragment s).headD (Dom.elem "style" [] none [] [] [])
  termination_by structural n => n

def generateHtmlForest : List LexNode → List Dom
  | [] => []
  | n :: ns => generateHtmlNode n :: generateHtmlForest ns
  termination_by structural f => f

end

mutual

/-- The DOM transformation of `cleanExportedHtml` (`LexicalEditor.jsx`):
(1) drop `class` tokens with the `lexical-` prefix, removing the
attribute when nothing remains; (2) drop `dir="ltr"`; (3) for `span`
elements, strip the `white-space: pre-wrap` marker from the style and
unwrap the span (replace it by its children) when no style remains.
A node maps to a list because unwrapping splices children upward. -/
def cleanNode : Dom → List Dom
  | .text s => [.text s]
  | .elem tag classes dir style attrs children =>
    let classes' := classes.filter
      (fun c => ¬ startsWithC "lexical-".data c.data)
    let dir' := if dir = some "ltr" then none else dir
    let kids := cleanForest children
    if tag = "span" then
      let style' := filterMarker style
      if style' = [] then kids
      else [.elem "span" classes' dir' style' attrs kids]
    else [.elem tag classes' dir' style attrs kids]
  termination_by structural d => d

def cleanForest : List Dom → List Dom
  | [] => []
  | d :: ds => cleanNode d ++ cleanForest ds
  termination_by structural f => f

end

/-- `cleanExportedHtml(html)` exactly as in `LexicalEditor.jsx`: parse
the HTML (a `text/html` document parse, so body content is what
remains), apply the three cleanup passes, return `doc.body.innerHTML`. -/
def cleanExportedHtml (html : String) : String :=
  printForest (cleanForest (parseDocument html).body)

/-- The value `SyncContentPlugin` writes to a hidden field:
`cleanExportedHtml($generateHtmlFromNodes(editor))`. -/
def syncValue (tree : List LexNode) : String :=
  cleanExportedHtml (printForest (generateHtmlForest tree))

/-! ## The source-view toggle: `applySourceChanges` (`ToolbarPlugin.jsx`)

State of one editor instance together with the page objects
`applySourceChanges` touches: the window-level raw-HTML override store
(`window._lexicalRawHtml`), the hidden field (`none` when
`document.getElementById` finds no field), and the toolbar's
source-view state hooks. -/

structure ApplyState where
  tree : List LexNode
  fieldId : Option String
  fieldVal : Option String
  rawStore : List (String × String)
  showSource : Bool
  sourceError : Option String
  sourceHTML : String
  deriving DecidableEq, Repr

/-- Insert-or-replace in an association list (a JS object keyed by id). -/
def storePut (store : List (String × String)) (k v : String) :
    List (String × String) :=
  match store.find? (fun e => e.1 = k) with
  | some _ => store.map (fun e => if e.1 = k then (k, v) else e)
  | none => store ++ [(k, v)]

def storeGet (store : List (String × String)) (k : String) :
    Option String :=
  (store.find? (fun e => e.1 = k)).map (·.2)

/-- The `editor.update` body of `applySourceChanges`: clear the root,
parse the source HTML, move `<style>` elements the parser hoisted into
`head` back to the front of the body (each is inserted before the
current first child, so a run of hoisted styles comes back reversed),
convert, and append with the paragraph-wrap loop. -/
def sourceImportTree (rawText : String) : List LexNode :=
  let doc := parseDocument rawText
  let body := doc.headStyles.reverse ++ doc.body
  appendWrapped (generateNodesFromDOM body)

/-- `applySourceChanges` (`ToolbarPlugin.jsx`).  Steps, in source order:
store the raw source HTML in `window._lexicalRawHtml[fieldId]` and
write it directly to the hidden field; then run the `editor.update`
that re-imports it for the visual view; on success the committed update
triggers `SyncContentPlugin`'s update listener (`LexicalEditor.jsx`),
which recomputes `cleanExportedHtml($generateHtmlFromNodes(editor))`
and writes that to the hidden field — the listener destructures only
`{ editorState }` and never looks at the `source-import` tag, so it
runs for this update too; finally clear the error and leave source
view.  The `engineThrow` argument models the spec's provision that the
engine-side import may throw a parse error: `some msg` makes the
`editor.update` step throw `msg`, which the surrounding `try/catch`
turns into `setSourceError` (remaining in source view). -/
def applySourceChanges (engineThrow : Option String) (st : ApplyState) :
    ApplyState :=
  -- Raw write: unconditional, before any parsing.
  let st1 := match st.fieldId with
    | some fid =>
      { st with
        rawStore := storePut st.rawStore fid st.sourceHTML
        fieldVal := st.fieldVal.map (fun _ => st.sourceHTML) }
    | none => st
  match engineThrow with
  | some msg => { st1 with sourceError := some msg }
  | none =>
    let newTree := sourceImportTree st.sourceHTML
    -- Committed update: SyncContentPlugin's listener fires and
    -- overwrites the hidden field with the normalized export.
    let st2 := { st1 with
      tree := newTree
      fieldVal := st1.fieldVal.map (fun _ => syncValue newTree) }
    { st2 with sourceError := none, showSource := false }

/-! ## `LoadContentPlugin` (`LexicalEditor.jsx`) -/

/-- One `{name, id, body}` document descriptor. -/
structure DocRec where
  id : String
  body : String
  deriving DecidableEq, Repr

/-- `LoadContentPlugin`'s effect on one instance: pick the hidden
field's value if present and non-empty, else the document's `body`
property; when the chosen content is non-empty, clear the root, parse
(no `<style>` relocation here), convert and append with the wrap loop;
otherwise leave the tree alone.  Returns the new tree. -/
def loadContentTree (doc : DocRec) (fieldVal : Option String)
    (tree : List LexNode) : List LexNode :=
  let htmlContent := match fieldVal with
    | some v => if v ≠ "" then v else doc.body
    | none => doc.body
  if htmlContent = "" then tree
  else importFromString htmlContent

/-! ## The page-wide registry API (`ExternalAPIPlugin`) -/

/-- One registered editor instance: its tree and whether it currently
has a live range selection (modelled as a root-child index when so). -/
structure EditorInst where
  tree : List LexNode
  selection : Option Nat
  deriving DecidableEq, Repr

/-- The page: `window._lexicalEditors`, the hidden fields present in
the DOM, and `window.activeLexicalEditorId`. -/
structure PageState where
  editors : List (String × EditorInst)
  fields : List (String × String)
  activeId : Option String
  deriving DecidableEq, Repr

def lookupEditor (st : PageState) (id : String) : Option EditorInst :=
  ((st.editors).find? (fun e => e.1 = id)).map (·.2)

def updateEditor (st : PageState) (id : String) (ed : EditorInst) :
    PageState :=
  { st with
    editors := st.editors.map (fun e => if e.1 = id then (id, ed) else e) }

/-- Write-through of the target editor's `SyncContentPlugin` listener
after its `update` commits: set that instance's hidden field (when
present) to the normalized export of its tree. -/
def syncField (st : PageState) (id : String) (tree : List LexNode) :
    PageState :=
  { st with fields := storePut' st.fields id (syncValue tree) }
where
  storePut' (fields : List (String × String)) (k v : String) :
      List (String × String) :=
    fields.map (fun e => if e.1 = k then (k, v) else e)

/-- `window.setLexicalEditorContent(targetFieldId, htmlContent)`
(`LexicalEditor.jsx`): unknown id → `console.error` and return;
otherwise clear the target's root, import the HTML (document parse, no
style relocation) and append with the wrap loop; the committed update
triggers that instance's sync listener.  Returns the new page state
and the log entry, if any. -/
def setLexicalEditorContent (st : PageState) (targetFieldId : String)
    (htmlContent : String) : PageState × Option String :=
  match lookupEditor st targetFieldId with
  | none =>
    (st, some ("No Lexical editor found for field ID: " ++ targetFieldId))
  | some ed =>
    let newTree := importFromString htmlContent
    let st1 := updateEditor st targetFieldId { ed with tree := newTree }
    (syncField st1 targetFieldId newTree, none)

/-- `window.insertIntoActiveLexicalEditor(htmlContent)`
(`LexicalEditor.jsx`): no active id, or an active id with no registered
editor → `console.error` and return.  Otherwise import the HTML; with a
live range selection, `$insertNodes` places the nodes at the selection
(modelled as insertion at the selection's root index); without one they
are appended at the end of the root through the wrap loop. -/
def insertIntoActiveLexicalEditor (st : PageState) (htmlContent : String) :
    PageState × Option String :=
  match st.activeId with
  | none =>
    (st, some "No active Lexical editor. Click on an editor first.")
  | some activeId =>
    match lookupEditor st activeId with
    | none =>
      (st, some ("No Lexical editor found for field ID: " ++ activeId))
    | some ed =>
      let nodes := generateNodesFromDOM (parseDocument htmlContent).body
      let newTree := match ed.selection with
        | some i => ed.tree.take i ++ nodes ++ ed.tree.drop i
        | none => ed.tree ++ appendWrapped nodes
      let st1 := updateEditor st activeId { ed with tree := newTree }
      (syncField st1 activeId newTree, none)

/-! ## Toolbar token dispatch (`ToolbarPlugin.jsx`) -/

/-- `toolList.split(' ').filter(t => t.trim())`. -/
def toolsOf (toolList : String) : List String :=
  (((splitOnChar ' ' toolList.data).map String.mk) : List String).filter
    (fun t => trimC t.data ≠ [])

/-- The control tokens the toolbar JSX tests with `tools.includes(...)`,
in render order (`ToolbarPlugin.jsx`). -/
def recognizedControls : List String :=
  ["formatblock", "spellcheck", "undo", "redo", "bold", "italic",
   "underline", "subscript", "superscript", "removeformatting",
   "selectall", "alignleft", "aligncenter", "alignright", "alignjustify",
   "bullist", "numlist", "checklist", "outdent", "indent", "copy", "cut",
   "paste", "pasteword", "fontsize", "fontfamily", "fontcase",
   "textcolor", "bgcolor", "table", "footnote", "horizontalrule",
   "maximize", "source"]

/-- Controls rendered from a token list: each recognized control is
emitted exactly when `tools.includes` it; nothing else renders. -/
def renderedControlsOf (tools : List String) : List String :=
  recognizedControls.filter (fun c => tools.contains c)

/-- Controls rendered for a raw space-delimited tool list. -/
def renderedControls (toolList : String) : List String :=
  renderedControlsOf (toolsOf toolList)

/-! ## Custom element attribute parsing (`lexical-editor-component.jsx`) -/

/-- A parsed JSON value.  Numbers keep their raw lexeme;
the component only ever reads strings out of these. -/
inductive JsonVal where
  | null
  | bool (b : Bool)
  | num (raw : String)
  | str (s : String)
  | arr (elems : List JsonVal)
  | obj (fields : List (String × JsonVal))
  deriving Repr

mutual

def jsonDecEq : (a b : JsonVal) → Decidable (a = b)
  | .null, .null => .isTrue rfl
  | .bool x, .bool y =>
    if h : x = y then .isTrue (by rw [h])
    else .isFalse (fun he => by cases he; exact h rfl)
  | .num x, .num y =>
    if h : x = y then .isTrue (by rw [h])
    else .isFalse (fun he => by cases he; exact h rfl)
  | .str x, .str y =>
    if h : x = y then .isTrue (by rw [h])
    else .isFalse (fun he => by cases he; exact h rfl)
  | .arr x, .arr y =>
    match jsonListDecEq x y with
    | .isTrue h => .isTrue (by rw [h])
    | .isFalse h => .isFalse (fun he => by cases he; exact h rfl)
  | .obj x, .obj y =>
    match jsonFieldsDecEq x y with
    | .isTrue h => .isTrue (by rw [h])
    | .isFalse h => .isFalse (fun he => by cases he; exact h rfl)
  | .null, .bool _ => .isFalse (fun he => by cases he)
  | .null, .num _ => .isFalse (fun he => by cases he)
  | .null, .str _ => .isFalse (fun he => by cases he)
  | .null, .arr _ => .isFalse (fun he => by cases he)
  | .null, .obj _ => .isFalse (fun he => by cases he)
  | .bool _, .null => .isFalse (fun he => by cases he)
  | .bool _, .num _ => .isFalse (fun he => by cases he)
  | .bool _, .str _ => .isFalse (fun he => by cases he)
  | .bool _, .arr _ => .isFalse (fun he => by cases he)
  | .bool _, .obj _ => .isFalse (fun he => by cases he)
  | .num _, .null => .isFalse (fun he => by cases he)
  | .num _, .bool _ => .isFalse (fun he => by cases he)
  | .num _, .str _ => .isFalse (fun he => by cases he)
  | .num _, .arr _ => .isFalse (fun he => by cases he)
  | .num _, .obj _ => .isFalse (fun he => by cases he)
  | .str _, .null => .isFalse (fun he => by cases he)
  | .str _, .bool _ => .isFalse (fun he => by cases he)
  | .str _, .num _ => .isFalse (fun he => by cases he)
  | .str _, .arr _ => .isFalse (fun he => by cases he)
  | .str _, .obj _ => .isFalse (fun he => by cases he)
  | .arr _, .null => .isFalse (fun he => by cases he)
  | .arr _, .bool _ => .isFalse (fun he => by cases he)
  | .arr _, .num _ => .isFalse (fun he => by cases he)
  | .arr _, .str _ => .isFalse (fun he => by cases he)
  | .arr _, .obj _ => .isFalse (fun he => by cases he)
  | .obj _, .null => .isFalse (fun he => by cases he)
  | .obj _, .bool _ => .isFalse (fun he => by cases he)
  | .obj _, .num _ => .isFalse (fun he => by cases he)
  | .obj _, .str _ => .isFalse (fun he => by cases he)
  | .obj _, .arr _ => .isFalse (fun he => by cases he)
  termination_by structural a => a

def jsonListDecEq : (a b : List JsonVal) → Decidable (a = b)
  | [], [] => .isTrue rfl
  | [], _ :: _ => .isFalse (fun he => by cases he)
  | _ :: _, [] => .isFalse (fun he => by cases he)
  | x :: xs, y :: ys =>
    match jsonDecEq x y with
    | .isTrue h1 =>
      match jsonListDecEq xs ys with
      | .isTrue h2 => .isTrue (by rw [h1, h2])
      | .isFalse h2 => .isFalse (fun he => by cases he; exact h2 rfl)
    | .isFalse h1 => .isFalse (fun he => by cases he; exact h1 rfl)
  termination_by structural a => a

def jsonFieldsDecEq : (a b : List (String × JsonVal)) → Decidable (a = b)
  | [], [] => .isTrue rfl
  | [], _ :: _ => .isFalse (fun he => by cases he)
  | _ :: _, [] => .isFalse (fun he => by cases he)
  | (k1, v1) :: xs, (k2, v2) :: ys =>
    match jsonDecEq v1 v2 with
    | .isTrue h1 =>
      if hk : k1 = k2 then
        match jsonFieldsDecEq xs ys with
        | .isTrue h2 => .isTrue (by rw [hk, h1, h2])
        | .isFalse h2 => .isFalse (fun he => by cases he; exact h2 rfl)
      else .isFalse (fun he => by cases he; exact hk rfl)
    | .isFalse h1 => .isFalse (fun he => by cases he; exact h1 rfl)
  termination_by structural a => a

end

instance : DecidableEq JsonVal := jsonDecEq

def hexVal (c : Char) : Option Nat :=
  if c.isDigit then some (c.toNat - '0'.toNat)
  else if 'a' ≤ c ∧ c ≤ 'f' then some (c.toNat - 'a'.toNat + 10)
  else if 'A' ≤ c ∧ c ≤ 'F' then some (c.toNat - 'A'.toNat + 10)
  else none

/-- Parse the body of a JSON string literal (after the opening quote).
Raw control characters (code points below 0x20 — raw newlines,
carriage returns, tabs) are invalid inside JSON strings and fail the
parse, exactly the `JSON.parse` behavior the component's sanitizer
works around. -/
def parseJsonString (fuel : Nat) (cs : List Char) :
    Option (String × List Char) :=
  match fuel with
  | 0 => none
  | fuel + 1 =>
    match cs with
    | [] => none
    | '"' :: rest => some ("", rest)
    | '\\' :: e :: rest =>
      let cont (c : Char) (rest' : List Char) :
          Option (String × List Char) :=
        (parseJsonString fuel rest').map
          (fun r => (String.mk (c :: r.1.data), r.2))
      match e with
      | '"' => cont '"' rest
      | '\\' => cont '\\' rest
      | '/' => cont '/' rest
      | 'b' => cont (Char.ofNat 8) rest
      | 'f' => cont (Char.ofNat 12) rest
      | 'n' => cont '\n' rest
      | 'r' => cont '\r' rest
      | 't' => cont '\t' rest
      | 'u' =>
        match rest with
        | a :: b :: c :: d :: rest' =>
          match hexVal a, hexVal b, hexVal c, hexVal d with
          | some x, some y, some z, some w =>
            cont (Char.ofNat (((x * 16 + y) * 16 + z) * 16 + w)) rest'
          | _, _, _, _ => none
        | _ => none
      | _ => none
    | c :: rest =>
      if c.toNat < 32 then none
      else (parseJsonString fuel rest).map
        (fun r => (String.mk (c :: r.1.data), r.2))

def skipJsonWs : List Char → List Char
  | [] => []
  | c :: rest =>
    if c = ' ' ∨ c = '\n' ∨ c = '\t' ∨ c = '\r' then skipJsonWs rest
    else c :: rest

mutual

/-- Modelled from the spec: `JSON.parse`, restricted to the strict JSON
grammar (in particular, raw control characters in string literals are a
parse error). -/
def parseJsonVal (fuel : Nat) (cs : List Char) :
    Option (JsonVal × List Char) :=
  match fuel with
  | 0 => none
  | fuel + 1 =>
    match skipJsonWs cs with
    | [] => none
    | '"' :: rest =>
      (parseJsonString (rest.length + 1) rest).map
        (fun r => (JsonVal.str r.1, r.2))
    | '{' :: rest =>
      (match skipJsonWs rest with
       | '}' :: rest' => some (JsonVal.obj [], rest')
       | rest' =>
         (parseJsonMembers fuel rest').map
           (fun r => (JsonVal.obj r.1, r.2)))
    | '[' :: rest =>
      (match skipJsonWs rest with
       | ']' :: rest' => some (JsonVal.arr [], rest')
       | rest' =>
         (parseJsonElems fuel rest').map
           (fun r => (JsonVal.arr r.1, r.2)))
    | 't' :: 'r' :: 'u' :: 'e' :: rest => some (JsonVal.bool true, rest)
    | 'f' :: 'a' :: 'l' :: 's' :: 'e' :: rest =>
      some (JsonVal.bool false, rest)
    | 'n' :: 'u' :: 'l' :: 'l' :: rest => some (JsonVal.null, rest)
    | c :: rest =>
      if c.isDigit ∨ c = '-' then
        let (digits, rest') := takeWhileC
          (fun d => d.isDigit ∨ d = '.' ∨ d = '-' ∨ d = '+' ∨ d = 'e'
            ∨ d = 'E') rest
        some (JsonVal.num (String.mk (c :: digits)), rest')
      else none

/-- Members of a JSON object, after the opening `{` (non-empty). -/
def parseJsonMembers (fuel : Nat) (cs : List Char) :
    Option (List (String × JsonVal) × List Char) :=
  match fuel with
  | 0 => none
  | fuel + 1 =>
    match skipJsonWs cs with
    | '"' :: rest =>
      match parseJsonString (rest.length + 1) rest with
      | none => none
      | some (key, rest1) =>
        match skipJsonWs rest1 with
        | ':' :: rest2 =>
          match parseJsonVal fuel rest2 with
          | none => none
          | some (v, rest3) =>
            match skipJsonWs rest3 with
            | ',' :: rest4 =>
              (parseJsonMembers fuel rest4).map
                (fun r => ((key, v) :: r.1, r.2))
            | '}' :: rest4 => some ([(key, v)], rest4)
            | _ => none
        | _ => none
    | _ => none

/-- Elements of a JSON array, after the opening `[` (non-empty). -/
def parseJsonElems (fuel : Nat) (cs : List Char) :
    Option (List JsonVal × List Char) :=
  match fuel with
  | 0 => none
  | fuel + 1 =>
    match parseJsonVal fuel cs with
    | none => none
    | some (v, rest) =>
      match skipJsonWs rest with
      | ',' :: rest' =>
        (parseJsonElems fuel rest').map (fun r => (v :: r.1, r.2))
      | ']' :: rest' => some ([v], rest')
      | _ => none

end

/-- `JSON.parse(s)`: the whole input must be one JSON value followed by
at most whitespace. -/
def jsonParse (s : String) : Option JsonVal :=
  match parseJsonVal (s.length + 1) s.data with
  | some (v, rest) => if skipJsonWs rest = [] then some v else none
  | none => none

/-- The sanitizer `connectedCallback` applies to the
`aryeditordocuments` attribute before `JSON.parse`, in source order:
`\r\n`, then `\r`, then `\n` become the two characters `\n`; `\t`
becomes `\t`. -/
def sanitizeDocsAttr (s : String) : String :=
  let r1 := replaceAllC ['\r', '\n'] ['\\', 'n'] s.data
  let r2 := replaceAllC ['\r'] ['\\', 'n'] r1
  let r3 := replaceAllC ['\n'] ['\\', 'n'] r2
  String.mk (replaceAllC ['\t'] ['\\', 't'] r3)

/-- Default editor sizing (`connectedCallback`). -/
def defaultSizing : List (String × JsonVal) :=
  [("minHeight", .str "200px"), ("maxHeight", .str "350px"),
   ("resize", .str "vertical")]

/-- JS object spread `{...defaults, ...parsed}`: keys of `parsed`
override, new keys append in order. -/
def spreadMerge (base upd : List (String × JsonVal)) :
    List (String × JsonVal) :=
  base.map (fun b => match upd.find? (fun u => u.1 = b.1) with
    | some u => u
    | none => b)
  ++ upd.filter (fun u => (base.find? (fun b => b.1 = u.1)).isNone)

/-- The outcome of `connectedCallback`'s attribute parsing. -/
structure ElementParams where
  documents : JsonVal
  editorSizing : List (String × JsonVal)
  spellCheckCallback : Option JsonVal
  logs : List String
  deriving Repr

/-- The `aryeditordocuments` `try/catch` of `connectedCallback`
(`lexical-editor-component.jsx`): sanitize, then `JSON.parse`; on
failure keep the default `[]` and log. -/
def docsParam (docsAttr : Option String) : JsonVal × List String :=
  match docsAttr with
  | none => (JsonVal.arr [], [])
  | some a =>
    match jsonParse (sanitizeDocsAttr a) with
    | some v => (v, [])
    | none => (JsonVal.arr [], ["Error parsing aryeditordocuments:"])

/-- The `editorsizing` `try/catch`: raw `JSON.parse` (no sanitizing),
spread-merged over the defaults; on failure keep the defaults and log. -/
def sizingParam (sizingAttr : Option String) :
    List (String × JsonVal) × List String :=
  match sizingAttr with
  | none => (defaultSizing, [])
  | some a =>
    match jsonParse a with
    | some (JsonVal.obj kvs) => (spreadMerge defaultSizing kvs, [])
    | some _ => (defaultSizing, [])
    | none => (defaultSizing, ["Error parsing editorsizing:"])

/-- The `objspellcheckcallback` `try/catch`: raw `JSON.parse`; on
failure keep `null` and log. -/
def spellParam (spellAttr : Option String) :
    Option JsonVal × List String :=
  match spellAttr with
  | none => (none, [])
  | some a =>
    match jsonParse a with
    | some v => (some v, [])
    | none => (none, ["Error parsing objspellcheckcallback:"])

/-- The three JSON-bearing attribute parses of `connectedCallback`,
each in its own `try/catch` (isolated failure domains). -/
def connectedCallbackParams (docsAttr sizingAttr spellAttr :
    Option String) : ElementParams :=
  ⟨(docsParam docsAttr).1, (sizingParam sizingAttr).1,
    (spellParam spellAttr).1,
    (docsParam docsAttr).2 ++ (sizingParam sizingAttr).2
      ++ (spellParam spellAttr).2⟩

/-! ## `StyleSheetNode` JSON serialization (`CustomFormatNodes.jsx`) -/

/-- The serialized record `exportJSON` emits / `importJSON` consumes.
`styleOuterHtml` is the current field; `styleContent` is the legacy
field older records carry.  `none` models an absent key; JS reads an
absent key as `undefined`, which is falsy — as is the empty string. -/
structure SerializedStyleSheet where
  styleOuterHtml : Option String
  styleContent : Option String
  deriving DecidableEq, Repr

/-- JS truthiness of an optional string: `undefined` and `""` are falsy. -/
def strTruthy : Option String → Bool
  | none => false
  | some s => s ≠ ""

/-- `a || b` on an optional string against a string default. -/
def orElseStr (a : Option String) (b : String) : String :=
  if strTruthy a then a.getD "" else b

/-- `StyleSheetNode.exportJSON()`: stores the node's
`__styleOuterHtml` under `styleOuterHtml` (no legacy field). -/
def styleSheetExportJSON (styleOuterHtml : String) :
    SerializedStyleSheet :=
  ⟨some styleOuterHtml, none⟩

/-- `StyleSheetNode.importJSON(serializedNode)`: read
`serializedNode.styleOuterHtml ||
  ("<style>" + (serializedNode.styleContent || "") + "</style>")`
and build the node from it. -/
def styleSheetImportJSON (s : SerializedStyleSheet) : String :=
  orElseStr s.styleOuterHtml
    ("<style>" ++ orElseStr s.styleContent "" ++ "</style>")

/-! ## Round-trip infrastructure

`exportHtml` / `importHtml` are the two halves of the idempotence
contract at DOM level (the claim's "up to attribute order and
whitespace" is exactly equality of the parsed DOM structure).
`normForest` is the normal form that one export-import pass produces:
format bits outside bold/italic cleared (only those have export
wrappers in this fragment), `white-space: pre-wrap` markers filtered
out of text styles. -/

/-- Normalized export: raw engine export followed by
`cleanExportedHtml`'s DOM transformation. -/
def exportHtml (tree : List LexNode) : List Dom :=
  cleanForest (generateHtmlForest tree)

/-- Import: generic conversion followed by the root-append wrap loop. -/
def importHtml (body : List Dom) : List LexNode :=
  appendWrapped (generateNodesFromDOM body)

def normFmt (f : Nat) : Nat :=
  (if f.testBit 0 then 1 else 0) + (if f.testBit 1 then 2 else 0)

mutual

def normNode : LexNode → LexNode
  | .text c f sty => .text c (normFmt f) (filterMarker sty)
  | .element k ch => .element k (normForest ch)
  | .styleSheet s => .styleSheet s
  termination_by structural n => n

def normForest : List LexNode → List LexNode
  | [] => []
  | n :: ns => normNode n :: normForest ns
  termination_by structural f => f

end

mutual

/-- No StyleSheet decorator anywhere in the node. -/
def ssFreeNode : LexNode → Bool
  | .text _ _ _ => true
  | .element _ ch => ssFreeForest ch
  | .styleSheet _ => false
  termination_by structural n => n

def ssFreeForest : List LexNode → Bool
  | [] => true
  | n :: ns => ssFreeNode n && ssFreeForest ns
  termination_by structural f => f

end

/-- The root invariant: only Element / Decorator children, never Text. -/
def topOk (f : List LexNode) : Bool := f.all isElementOrDecorator

/-! ### Homomorphism and bookkeeping lemmas -/

theorem convertForest_append (ctx : InlineCtx) (a b : List Dom) :
    convertForest ctx (a ++ b) =
      convertForest ctx a ++ convertForest ctx b := by
  induction a with
  | nil => simp [convertForest]
  | cons d ds ih => simp [convertForest, ih]

theorem cleanForest_append (a b : List Dom) :
    cleanForest (a ++ b) = cleanForest a ++ cleanForest b := by
  induction a with
  | nil => simp [cleanForest]
  | cons d ds ih => simp [cleanForest, ih]

theorem generateHtmlForest_cons (n : LexNode) (ns : List LexNode) :
    generateHtmlForest (n :: ns) =
      generateHtmlNode n :: generateHtmlForest ns := rfl

theorem normFmt_testBit_zero (f : Nat) :
    (normFmt f).testBit 0 = f.testBit 0 := by
  rcases h0 : f.testBit 0 <;> rcases h1 : f.testBit 1 <;>
    simp only [normFmt, h0, h1, if_true, if_false] <;> decide

theorem normFmt_testBit_one (f : Nat) :
    (normFmt f).testBit 1 = f.testBit 1 := by
  rcases h0 : f.testBit 0 <;> rcases h1 : f.testBit 1 <;>
    simp only [normFmt, h0, h1, if_true, if_false] <;> decide

theorem topOk_appendWrapped (ns : List LexNode) :
    topOk (appendWrapped ns) = true := by
  induction ns with
  | nil => simp [topOk, appendWrapped]
  | cons n ns ih =>
    rcases h : isElementOrDecorator n <;>
      simp_all [topOk, appendWrapped, isElementOrDecorator]

theorem appendWrapped_of_topOk (f : List LexNode) (h : topOk f = true) :
    appendWrapped f = f := by
  induction f with
  | nil => rfl
  | cons n ns ih =>
    simp only [topOk, List.all_cons, Bool.and_eq_true] at h
    simp [appendWrapped, h.1, ih (by simp [topOk, h.2])]

theorem isElementOrDecorator_norm (n : LexNode) :
    isElementOrDecorator (normNode n) = isElementOrDecorator n := by
  cases n <;> simp [normNode, isElementOrDecorator]

theorem topOk_norm (f : List LexNode) (h : topOk f = true) :
    topOk (normForest f) = true := by
  induction f with
  | nil => simp [topOk, normForest]
  | cons n ns ih =>
    simp only [topOk, List.all_cons, Bool.and_eq_true] at h
    simp only [normForest, topOk, List.all_cons, Bool.and_eq_true]
    exact ⟨by rw [isElementOrDecorator_norm]; exact h.1,
      by simpa [topOk] using ih (by simp [topOk, h.2])⟩

theorem filter_lexbold :
    (["lexical-bold"].filter
      (fun c => ¬ startsWithC "lexical-".data c.data)) = [] := by decide

theorem filter_lexitalic :
    (["lexical-italic"].filter
      (fun c => ¬ startsWithC "lexical-".data c.data)) = [] := by decide

theorem filter_classOfKind (k : ElemKind) :
    ((classOfKind k).filter
      (fun c => ¬ startsWithC "lexical-".data c.data)) = [] := by
  cases k with
  | heading lvl => cases lvl <;> decide
  | _ => decide

theorem tagOfKind_ne_span (k : ElemKind) : tagOfKind k ≠ "span" := by
  cases k with
  | heading lvl => cases lvl <;> decide
  | _ => decide

/-- Re-importing the cleaned export of one text node recovers the text
with its format mask reduced to the serialized bits and its style freed
of the whitespace marker. -/
theorem convClean_text (c : String) (f : Nat) (sty : List CssDecl) :
    convertForest ictx0 (cleanNode (exportText c f sty)) =
      [LexNode.text c (normFmt f) (filterMarker sty)] := by
  rcases h0 : f.testBit 0 <;> rcases h1 : f.testBit 1 <;>
    rcases hfs : filterMarker sty with _ | ⟨d, ds⟩ <;>
      simp [exportText, h0, h1, cleanNode, cleanForest,
        filterMarker_marker_cons, hfs, convertForest, convertNode, ictx0,
        fmtOf, normFmt, filter_lexbold, filter_lexitalic]

theorem dirOfKind_clean (k : ElemKind) :
    (if dirOfKind k = some "ltr" then none else dirOfKind k) =
      (none : Option String) := by
  cases k <;> simp [dirOfKind]

/-- Cleaning the export of a block element strips its theme class and
direction attribute and recurses into the children. -/
theorem cleanNode_export_elem (k : ElemKind) (ch : List LexNode) :
    cleanNode (generateHtmlNode (.element k ch)) =
      [Dom.elem (tagOfKind k) [] none [] []
        (cleanForest (generateHtmlForest ch))] := by
  simp [generateHtmlNode, cleanNode, tagOfKind_ne_span k,
    filter_classOfKind k, dirOfKind_clean k]
  intro a ha
  have := filter_classOfKind k
  rw [List.filter_eq_nil_iff] at this
  have h2 := this a ha
  simpa using h2

/-- The generic converter maps each block tag back to its kind. -/
theorem convertNode_export_elem (k : ElemKind) (kids : List Dom) :
    convertNode ictx0 (Dom.elem (tagOfKind k) [] none [] [] kids) =
      [.element k (convertForest ictx0 kids)] := by
  cases k with
  | heading lvl => cases lvl <;> simp [convertNode, tagOfKind]
  | _ => simp [convertNode, tagOfKind]

mutual

/-- Re-importing the cleaned export of a StyleSheet-free node yields
its normal form. -/
theorem convClean_node (n : LexNode) (h : ssFreeNode n = true) :
    convertForest ictx0 (cleanNode (generateHtmlNode n)) = [normNode n] := by
  cases n with
  | text c f sty => exact convClean_text c f sty
  | element k ch =>
    have ih := convClean_forest ch (by simpa [ssFreeNode] using h)
    rw [cleanNode_export_elem k ch]
    simp [convertForest, convertNode_export_elem k, ih, normNode]
  | styleSheet s => simp [ssFreeNode] at h

theorem convClean_forest (f : List LexNode) (h : ssFreeForest f = true) :
    convertForest ictx0 (cleanForest (generateHtmlForest f)) =
      normForest f := by
  cases f with
  | nil => simp [generateHtmlForest, cleanForest, convertForest, normForest]
  | cons n ns =>
    have hn : ssFreeNode n = true := by
      simp only [ssFreeForest, Bool.and_eq_true, decide_eq_true_eq] at h
      simpa using h.1
    have hns : ssFreeForest ns = true := by
      simp only [ssFreeForest, Bool.and_eq_true, decide_eq_true_eq] at h
      simpa using h.2
    rw [generateHtmlForest_cons]
    show convertForest ictx0
      (cleanNode (generateHtmlNode n) ++ cleanForest (generateHtmlForest ns))
        = normForest (n :: ns)
    rw [convertForest_append, convClean_node n hn, convClean_forest ns hns]
    simp [normForest]

end

theorem exportText_normFmt (c : String) (f : Nat) (l : List CssDecl) :
    exportText c (normFmt f) l = exportText c f l := by
  unfold exportText
  rw [normFmt_testBit_zero, normFmt_testBit_one]

theorem cleanNode_exportText_filter (c : String) (f : Nat)
    (sty : List CssDecl) :
    cleanNode (exportText c f (filterMarker sty)) =
      cleanNode (exportText c f sty) := by
  rcases h0 : f.testBit 0 <;> rcases h1 : f.testBit 1 <;>
    simp only [exportText, h0, h1, if_true, if_false] <;>
      simp [cleanNode, cleanForest, filterMarker_marker_cons,
        filterMarker_idem]

mutual

/-- The cleaned export of a node is unchanged by normalization. -/
theorem export_norm_node (n : LexNode) :
    cleanNode (generateHtmlNode (normNode n)) =
      cleanNode (generateHtmlNode n) := by
  cases n with
  | text c f sty =>
    show cleanNode (exportText c (normFmt f) (filterMarker sty)) = _
    rw [exportText_normFmt, cleanNode_exportText_filter]
    rfl
  | element k ch =>
    have ih := export_norm_forest ch
    show cleanNode (generateHtmlNode (.element k (normForest ch))) = _
    rw [cleanNode_export_elem, cleanNode_export_elem, ih]
  | styleSheet s => rfl

theorem export_norm_forest (f : List LexNode) :
    cleanForest (generateHtmlForest (normForest f)) =
      cleanForest (generateHtmlForest f) := by
  cases f with
  | nil => rfl
  | cons n ns =>
    show cleanForest (generateHtmlNode (normNode n) ::
        generateHtmlForest (normForest ns)) = _
    rw [generateHtmlForest_cons]
    show cleanNode (generateHtmlNode (normNode n)) ++
        cleanForest (generateHtmlForest (normForest ns)) =
      cleanNode (generateHtmlNode n) ++ cleanForest (generateHtmlForest ns)
    rw [export_norm_node n, export_norm_forest ns]

end

theorem ssFreeForest_append (a b : List LexNode) :
    ssFreeForest (a ++ b) = (ssFreeForest a && ssFreeForest b) := by
  induction a with
  | nil => simp [ssFreeForest]
  | cons n ns ih => simp [ssFreeForest, ih, Bool.and_assoc]

mutual

/-- The generic converter never produces a StyleSheet node
(`IGNORE_TAGS` excludes `style` / `script`, and no converter in the
registry builds one). -/
theorem ssFree_convertNode (ctx : InlineCtx) (d : Dom) :
    ssFreeForest (convertNode ctx d) = true := by
  cases d with
  | text s => simp [convertNode, ssFreeForest, ssFreeNode]
  | elem tag classes dir style attrs children =>
    simp only [convertNode]
    split <;>
      simp [ssFreeForest, ssFreeNode, ssFree_convertForest _ children]

theorem ssFree_convertForest (ctx : InlineCtx) (f : List Dom) :
    ssFreeForest (convertForest ctx f) = true := by
  cases f with
  | nil => simp [convertForest, ssFreeForest]
  | cons d ds =>
    show ssFreeForest (convertNode ctx d ++ convertForest ctx ds) = true
    rw [ssFreeForest_append, ssFree_convertNode ctx d,
      ssFree_convertForest ctx ds]
    rfl

end

theorem ssFree_appendWrapped (ns : List LexNode)
    (h : ssFreeForest ns = true) :
    ssFreeForest (appendWrapped ns) = true := by
  induction ns with
  | nil => simpa [appendWrapped] using h
  | cons n rest ih =>
    simp only [ssFreeForest, Bool.and_eq_true] at h
    rcases hed : isElementOrDecorator n <;>
      simp [appendWrapped, hed, ssFreeForest, ssFreeNode, h.1, ih h.2]

theorem ssFree_importHtml (d : List Dom) :
    ssFreeForest (importHtml d) = true :=
  ssFree_appendWrapped _ (ssFree_convertForest ictx0 d)

/-! ### The idempotence contract -/

/-- One import-export pass computes the normal form (`StyleSheet`-free
trees). -/
theorem importHtml_exportHtml (t : List LexNode)
    (h1 : ssFreeForest t = true) (h2 : topOk t = true) :
    importHtml (exportHtml t) = normForest t := by
  unfold importHtml exportHtml generateNodesFromDOM
  rw [convClean_forest t h1]
  exact appendWrapped_of_topOk _ (topOk_norm t h2)

/-! ### Registry bookkeeping lemmas -/

/-- Every registered instance's root satisfies the invariant. -/
def pageOk (st : PageState) : Bool :=
  st.editors.all (fun e => topOk e.2.tree)

theorem topOk_append (a b : List LexNode) :
    topOk (a ++ b) = (topOk a && topOk b) := by
  simp [topOk, List.all_append]

theorem pageOk_syncField (st : PageState) (id : String)
    (tree : List LexNode) : pageOk (syncField st id tree) = pageOk st := rfl

theorem pageOk_updateEditor (st : PageState) (id : String)
    (ed : EditorInst) (hok : pageOk st = true)
    (hed : topOk ed.tree = true) :
    pageOk (updateEditor st id ed) = true := by
  unfold pageOk updateEditor at *
  simp only [List.all_eq_true] at *
  intro e he
  simp only [List.mem_map] at he
  obtain ⟨e0, he0, rfl⟩ := he
  by_cases h : e0.1 = id
  · simpa [h] using hed
  · simpa [h] using hok e0 he0

theorem lookupEditor_topOk (st : PageState) (id : String)
    (ed : EditorInst) (hok : pageOk st = true)
    (hfind : lookupEditor st id = some ed) : topOk ed.tree = true := by
  unfold pageOk at hok
  unfold lookupEditor at hfind
  simp only [List.all_eq_true] at hok
  rcases hf : st.editors.find? (fun e => e.1 = id) with _ | e0
  · rw [hf] at hfind; cases hfind
  · rw [hf] at hfind
    have hmem := List.mem_of_find?_eq_some hf
    have := hok e0 hmem
    simp only [Option.map_some'] at hfind
    cases hfind
    exact this

theorem find_map_update_self (l : List (String × EditorInst))
    (id : String) (ed : EditorInst)
    (h : (l.find? (fun e => e.1 = id)).isSome = true) :
    (l.map (fun e => if e.1 = id then (id, ed) else e)).find?
      (fun e => e.1 = id) = some (id, ed) := by
  induction l with
  | nil => simp at h
  | cons e es ih =>
    by_cases he : e.1 = id
    · rw [List.map_cons, if_pos he,
        List.find?_cons_of_pos _ (by simp : _ = _)]
    · rw [List.map_cons, if_neg he,
        List.find?_cons_of_neg _ (by simpa using he)]
      rw [List.find?_cons_of_neg _ (by simpa using he)] at h
      exact ih h

theorem find_map_update_other (l : List (String × EditorInst))
    (id other : String) (ed : EditorInst) (h : other ≠ id) :
    (l.map (fun e => if e.1 = id then (id, ed) else e)).find?
        (fun e => e.1 = other) =
      l.find? (fun e => e.1 = other) := by
  induction l with
  | nil => rfl
  | cons e es ih =>
    by_cases he : e.1 = id
    · have h1 : ¬ (id = other) := fun hh => h hh.symm
      have h2 : ¬ (e.1 = other) := by rw [he]; exact h1
      rw [List.map_cons, if_pos he,
        List.find?_cons_of_neg _ (by simpa using h1),
        List.find?_cons_of_neg _ (by simpa using h2)]
      exact ih
    · by_cases ho : e.1 = other
      · rw [List.map_cons, if_neg he,
          List.find?_cons_of_pos _ (by simpa using ho),
          List.find?_cons_of_pos _ (by simpa using ho)]
      · rw [List.map_cons, if_neg he,
          List.find?_cons_of_neg _ (by simpa using ho),
          List.find?_cons_of_neg _ (by simpa using ho)]
        exact ih

theorem lookupEditor_updateEditor_self (st : PageState) (id : String)
    (ed ed0 : EditorInst) (hfind : lookupEditor st id = some ed0) :
    lookupEditor (updateEditor st id ed) id = some ed := by
  have h : (st.editors.find? (fun e => e.1 = id)).isSome = true := by
    unfold lookupEditor at hfind
    rcases hf : st.editors.find? (fun e => e.1 = id) with _ | e0
    · rw [hf] at hfind; cases hfind
    · simp [hf]
  unfold lookupEditor updateEditor
  simp only
  rw [find_map_update_self st.editors id ed h]
  rfl

theorem lookupEditor_updateEditor_other (st : PageState)
    (id other : String) (ed : EditorInst) (h : other ≠ id) :
    lookupEditor (updateEditor st id ed) other =
      lookupEditor st other := by
  unfold lookupEditor updateEditor
  simp only
  rw [find_map_update_other st.editors id other ed h]

/-! ## Claim theorems -/

/-- The conversion `StyleSheetNode.importDOM` registers for `style`
elements (`CustomFormatNodes.jsx`): build a StyleSheetNode from
`element.outerHTML`.  As the source's own comment records, it is never
reached through `$generateNodesFromDOM` because of `IGNORE_TAGS`. -/
def styleSheetConversion (element : Dom) : LexNode :=
  .styleSheet (printDom element)

/-- The spec's own Source→Visual example input (§8.6). -/
def c1Raw : String := "<p>Changed</p><style>.x\x7bcolor:red\x7d</style>"

def c1State : ApplyState :=
  { tree := [], fieldId := some "doc1_id", fieldVal := some "<p>old</p>",
    rawStore := [], showSource := true, sourceError := none,
    sourceHTML := c1Raw }

/-- C1: the claim says a successful Source→Visual apply leaves the
hidden field byte-for-byte equal to the raw source text.  In the code
the raw write does happen, and the override store and the tree behave
as claimed — but the `editor.update` that re-imports the text triggers
`SyncContentPlugin`'s update listener, which ignores the
`source-import` tag (it destructures only `{ editorState }`) and
overwrites the hidden field with the normalized export.  On the spec's
own example the field ends as `<p>Changed</p>`, not the raw text: the
`<style>` block is gone. -/
theorem c1_sourceApply_field_not_raw :
    (applySourceChanges none c1State).rawStore = [("doc1_id", c1Raw)]
      ∧ (applySourceChanges none c1State).tree =
        [.element .paragraph [.text "Changed" 0 []]]
      ∧ (applySourceChanges none c1State).showSource = false
      ∧ (applySourceChanges none c1State).fieldVal = some "<p>Changed</p>"
      ∧ (applySourceChanges none c1State).fieldVal ≠ some c1Raw := by
  decide

def c2State : ApplyState :=
  { tree := [.element .paragraph [.text "x" 0 []]],
    fieldId := some "doc1_id", fieldVal := some "<p>x</p>",
    rawStore := [], showSource := true, sourceError := none,
    sourceHTML := "<p>bad" }

/-- C2 (counterexample): the claim says a failed apply leaves both the
tree and the hidden field unchanged.  The editor does remain in Source
view with a surfaced error and an unchanged tree, but the hidden field
(and the override store) were already set to the raw text before
the import was attempted, so the field has changed. -/
theorem c2_failure_field_already_written :
    (applySourceChanges (some "ParseError") c2State).showSource = true
      ∧ (applySourceChanges (some "ParseError") c2State).sourceError =
        some "ParseError"
      ∧ (applySourceChanges (some "ParseError") c2State).tree = c2State.tree
      ∧ (applySourceChanges (some "ParseError") c2State).fieldVal =
        some "<p>bad"
      ∧ (applySourceChanges (some "ParseError") c2State).fieldVal ≠
        c2State.fieldVal := by
  decide

/-- C2 (amended): when the apply path throws, the editor remains in
Source view, the error is surfaced, and the tree is unchanged — but the
hidden field and the override store have already been set to the raw
source text, because `applySourceChanges` writes them before running
the import. -/
theorem c2_failure_behavior (st : ApplyState) (msg : String) :
    (applySourceChanges (some msg) st).showSource = st.showSource
      ∧ (applySourceChanges (some msg) st).sourceError = some msg
      ∧ (applySourceChanges (some msg) st).tree = st.tree
      ∧ (applySourceChanges (some msg) st).fieldVal =
        (match st.fieldId with
         | some _ => st.fieldVal.map (fun _ => st.sourceHTML)
         | none => st.fieldVal)
      ∧ (applySourceChanges (some msg) st).rawStore =
        (match st.fieldId with
         | some fid => storePut st.rawStore fid st.sourceHTML
         | none => st.rawStore) := by
  rcases hf : st.fieldId with _ | fid <;>
    simp [applySourceChanges, hf]

/-- C3 (amended): export-after-import is idempotent after the first
normalization for every StyleSheet-free tree satisfying the root
invariant, and — without any side condition — for every re-imported
forest: `export(import(export(import(d)))) = export(import(d))` for
every parsed input `d`.  Trees containing a StyleSheet decorator are
excluded: the generic import drops `style` elements, so their export is
not recovered (see the counterexample). -/
theorem c3_export_import_idempotent (t : List LexNode) (d : List Dom)
    (h1 : ssFreeForest t = true) (h2 : topOk t = true) :
    exportHtml (importHtml (exportHtml t)) = exportHtml t
      ∧ exportHtml (importHtml (exportHtml (importHtml d))) =
        exportHtml (importHtml d) := by
  constructor
  · rw [importHtml_exportHtml t h1 h2]
    exact export_norm_forest t
  · rw [importHtml_exportHtml (importHtml d) (ssFree_importHtml d)
      (topOk_appendWrapped _)]
    exact export_norm_forest _

theorem c3_export_import_idempotent_witness :
    ssFreeForest [LexNode.element .paragraph [.text "world" 1 []]] = true
      ∧ topOk [LexNode.element .paragraph [.text "world" 1 []]] = true
      ∧ (exportHtml (importHtml (exportHtml
          [LexNode.element .paragraph [.text "world" 1 []]])) =
        exportHtml [LexNode.element .paragraph [.text "world" 1 []]]
      ∧ exportHtml (importHtml (exportHtml (importHtml
          (parseFragment "<p>Hello <strong>world</strong></p>")))) =
        exportHtml (importHtml
          (parseFragment "<p>Hello <strong>world</strong></p>"))) :=
  ⟨by decide, by decide,
    c3_export_import_idempotent
      [LexNode.element .paragraph [.text "world" 1 []]]
      (parseFragment "<p>Hello <strong>world</strong></p>")
      (by decide) (by decide)⟩

/-- A tree holding a paragraph followed by a StyleSheet decorator. -/
def c3Tree : List LexNode :=
  [.element .paragraph [.text "a" 0 []],
   .styleSheet "<style media=\"print\">.x\x7bcolor:red\x7d</style>"]

/-- C3 (counterexample): for a tree containing a StyleSheet decorator
the contract fails — the import half of the second pass drops the
`style` element, so the re-exported output loses it. -/
theorem c3_styleSheet_not_idempotent :
    exportHtml (importHtml (exportHtml c3Tree)) ≠ exportHtml c3Tree := by
  decide

/-- The §8.3 probe input: a `<style media="print">` block. -/
def c4Style : String := "<style media=\"print\">.x\x7bcolor:red\x7d</style>"

def c4StyleElem : Dom :=
  Dom.elem "style" [] none [] [("media", "print")]
    [Dom.text ".x\x7bcolor:red\x7d"]

/-- C4: the claim says the `<style>` block survives an import→export
cycle because `<style>` elements are converted to StyleSheet nodes
before the generic conversion runs.  The registered conversion
(`StyleSheetNode.importDOM`) would indeed produce exactly that node —
but nothing invokes it: `LoadContentPlugin` passes the document straight
to `$generateNodesFromDOM` (the parser has hoisted the leading style
into `head`), and `applySourceChanges` relocates the style back into
the body but then also calls only `$generateNodesFromDOM`, whose
`IGNORE_TAGS` drops it.  Both import paths yield an empty tree and the
re-exported output is empty: the block does not survive. -/
theorem c4_style_block_dropped :
    styleSheetConversion c4StyleElem = .styleSheet c4Style
      ∧ convertNode ictx0 c4StyleElem = []
      ∧ loadContentTree ⟨"doc1_id", c4Style⟩ none [] = []
      ∧ sourceImportTree c4Style = []
      ∧ syncValue (sourceImportTree c4Style) = ""
      ∧ syncValue (sourceImportTree c4Style) ≠ c4Style := by
  decide

/-- C5: every operation that populates a root — the wrap loop itself,
the initial content load, `setContent`, `insertAtActive`'s append
branch (no live selection on the active instance), and the source
apply — preserves the invariant that the root holds only Element or
Decorator children and never a bare Text node: inline nodes are wrapped
in a synthetic Paragraph. -/
theorem c5_root_never_bare_text :
    (∀ ns : List LexNode, topOk (appendWrapped ns) = true)
      ∧ (∀ (doc : DocRec) (fv : Option String) (t : List LexNode),
          topOk t = true → topOk (loadContentTree doc fv t) = true)
      ∧ (∀ (st : PageState) (id html : String), pageOk st = true →
          pageOk (setLexicalEditorContent st id html).1 = true)
      ∧ (∀ (st : PageState) (html : String), pageOk st = true →
          (∀ aid ed, st.activeId = some aid →
            lookupEditor st aid = some ed → ed.selection = none) →
          pageOk (insertIntoActiveLexicalEditor st html).1 = true)
      ∧ (∀ (engineThrow : Option String) (ast : ApplyState),
          topOk ast.tree = true →
          topOk (applySourceChanges engineThrow ast).tree = true) := by
  have key : ∀ (s : String) (t : List LexNode), topOk t = true →
      topOk (if s = "" then t else importFromString s) = true := by
    intro s t ht
    split
    · exact ht
    · simp [importFromString, topOk_appendWrapped]
  refine ⟨topOk_appendWrapped, ?_, ?_, ?_, ?_⟩
  · intro doc fv t ht
    rcases fv with _ | v <;> exact key _ t ht
  · intro st id html hok
    rcases hl : lookupEditor st id with _ | ed
    · simpa [setLexicalEditorContent, hl] using hok
    · simp only [setLexicalEditorContent, hl]
      rw [pageOk_syncField]
      exact pageOk_updateEditor _ _ _ hok
        (by simp [importFromString, topOk_appendWrapped])
  · intro st html hok hsel
    rcases ha : st.activeId with _ | aid
    · simpa [insertIntoActiveLexicalEditor, ha] using hok
    · rcases hl : lookupEditor st aid with _ | ed
      · simpa [insertIntoActiveLexicalEditor, ha, hl] using hok
      · have hse := hsel aid ed ha hl
        simp only [insertIntoActiveLexicalEditor, ha, hl, hse]
        rw [pageOk_syncField]
        refine pageOk_updateEditor _ _ _ hok ?_
        simp only [topOk_append, Bool.and_eq_true]
        exact ⟨lookupEditor_topOk st aid ed hok hl, topOk_appendWrapped _⟩
  · intro engineThrow ast ht
    rcases engineThrow with _ | msg <;>
      rcases hf : ast.fieldId with _ | fid <;>
        simp [applySourceChanges, hf, sourceImportTree,
          topOk_appendWrapped, ht]

def c5Page : PageState :=
  { editors := [("doc1_id", ⟨[.element .paragraph [.text "x" 0 []]], none⟩)],
    fields := [("doc1_id", "<p>x</p>")], activeId := some "doc1_id" }

theorem c5_root_never_bare_text_witness :
    pageOk c5Page = true
      ∧ topOk (appendWrapped [LexNode.text "loose" 0 []]) = true
      ∧ pageOk (setLexicalEditorContent c5Page "doc1_id" "plain text").1
          = true
      ∧ pageOk (insertIntoActiveLexicalEditor c5Page "tail text").1
          = true
      ∧ topOk (applySourceChanges none
          { tree := [], fieldId := some "doc1_id",
            fieldVal := some "<p>x</p>", rawStore := [],
            showSource := true, sourceError := none,
            sourceHTML := "raw <b>text</b>" }).tree = true :=
  ⟨by decide, c5_root_never_bare_text.1 _,
    c5_root_never_bare_text.2.2.1 c5Page "doc1_id" "plain text"
      (by decide),
    c5_root_never_bare_text.2.2.2.1 c5Page "tail text" (by decide)
      (by intro aid ed ha hl
          simp only [c5Page] at ha hl
          cases ha
          simp [lookupEditor, c5Page, List.find?] at hl
          rw [← hl]),
    c5_root_never_bare_text.2.2.2.2 none _ (by decide)⟩

/-- C6: `setContent(id, html)` with an unregistered id is a no-op plus
a log entry; with a registered id it replaces exactly that instance's
tree by `import(html)` (other instances untouched, no log), so
exporting that instance's tree afterwards reproduces
`export(import(html))`. -/
theorem c6_setContent (st : PageState) (id html : String) :
    (lookupEditor st id = none →
        (setLexicalEditorContent st id html).1 = st
          ∧ (setLexicalEditorContent st id html).2 ≠ none)
      ∧ (∀ ed, lookupEditor st id = some ed →
          lookupEditor (setLexicalEditorContent st id html).1 id =
              some { ed with tree := importFromString html }
            ∧ (setLexicalEditorContent st id html).2 = none
            ∧ (∀ other, other ≠ id →
                lookupEditor (setLexicalEditorContent st id html).1 other
                  = lookupEditor st other)
            ∧ syncValue { ed with tree := importFromString html }.tree
                = syncValue (importFromString html)) := by
  constructor
  · intro hnone
    simp [setLexicalEditorContent, hnone]
  · intro ed hsome
    refine ⟨?_, ?_, ?_, rfl⟩
    · simp only [setLexicalEditorContent, hsome]
      exact lookupEditor_updateEditor_self _ _ _ ed hsome
    · simp [setLexicalEditorContent, hsome]
    · intro other hother
      simp only [setLexicalEditorContent, hsome]
      exact lookupEditor_updateEditor_other _ _ _ _ hother

def c6Page : PageState :=
  { editors := [("doc1_id", ⟨[], none⟩)],
    fields := [("doc1_id", "")], activeId := none }

theorem c6_setContent_witness :
    lookupEditor c6Page "unregistered-id" = none
      ∧ ((setLexicalEditorContent c6Page "unregistered-id" "<p>a</p>").1
            = c6Page
          ∧ (setLexicalEditorContent c6Page "unregistered-id"
              "<p>a</p>").2 ≠ none)
      ∧ lookupEditor c6Page "doc1_id" = some ⟨[], none⟩
      ∧ lookupEditor
          (setLexicalEditorContent c6Page "doc1_id" "<p>a</p>").1
          "doc1_id" = some ⟨importFromString "<p>a</p>", none⟩ :=
  ⟨by decide,
    (c6_setContent c6Page "unregistered-id" "<p>a</p>").1 (by decide),
    by decide,
    ((c6_setContent c6Page "doc1_id" "<p>a</p>").2 ⟨[], none⟩
      (by decide)).1⟩

/-- C7: `insertAtActive(html)` is a no-op plus a log entry when no
instance is marked last-focused (no active id, or the active id no
longer registered); with a live range selection on the active instance
the imported nodes are inserted at the selection; without one they are
appended at the end of that instance's root through the wrap loop. -/
theorem c7_insertAtActive (st : PageState) (html : String) :
    (st.activeId = none →
        (insertIntoActiveLexicalEditor st html).1 = st
          ∧ (insertIntoActiveLexicalEditor st html).2 ≠ none)
      ∧ (∀ aid, st.activeId = some aid → lookupEditor st aid = none →
          (insertIntoActiveLexicalEditor st html).1 = st
            ∧ (insertIntoActiveLexicalEditor st html).2 ≠ none)
      ∧ (∀ aid ed i, st.activeId = some aid →
          lookupEditor st aid = some ed → ed.selection = some i →
          lookupEditor (insertIntoActiveLexicalEditor st html).1 aid =
            some { ed with
                    tree := ed.tree.take i
                      ++ generateNodesFromDOM (parseDocument html).body
                      ++ ed.tree.drop i })
      ∧ (∀ aid ed, st.activeId = some aid →
          lookupEditor st aid = some ed → ed.selection = none →
          lookupEditor (insertIntoActiveLexicalEditor st html).1 aid =
            some { ed with
                    tree := ed.tree ++ appendWrapped
                      (generateNodesFromDOM (parseDocument html).body) }) := by
  refine ⟨?_, ?_, ?_, ?_⟩
  · intro hnone
    simp [insertIntoActiveLexicalEditor, hnone]
  · intro aid ha hnone
    simp [insertIntoActiveLexicalEditor, ha, hnone]
  · intro aid ed i ha hl hsel
    simp only [insertIntoActiveLexicalEditor, ha, hl, hsel]
    exact lookupEditor_updateEditor_self _ _ _ ed hl
  · intro aid ed ha hl hsel
    simp only [insertIntoActiveLexicalEditor, ha, hl, hsel]
    exact lookupEditor_updateEditor_self _ _ _ ed hl

def c7PageSel : PageState :=
  { editors := [("doc1_id",
      ⟨[.element .paragraph [.text "x" 0 []]], some 1⟩)],
    fields := [("doc1_id", "<p>x</p>")], activeId := some "doc1_id" }

def c7PageNoSel : PageState :=
  { editors := [("doc1_id",
      ⟨[.element .paragraph [.text "x" 0 []]], none⟩)],
    fields := [("doc1_id", "<p>x</p>")], activeId := none }

theorem c7_insertAtActive_witness :
    c7PageNoSel.activeId = none
      ∧ ((insertIntoActiveLexicalEditor c7PageNoSel "<p>b</p>").1
          = c7PageNoSel)
      ∧ lookupEditor
          (insertIntoActiveLexicalEditor c7PageSel "<p>b</p>").1
          "doc1_id" =
        some ⟨[.element .paragraph [.text "x" 0 []],
          .element .paragraph [.text "b" 0 []]], some 1⟩ :=
  ⟨by decide,
    ((c7_insertAtActive c7PageNoSel "<p>b</p>").1 (by decide)).1,
    by
      have h := (c7_insertAtActive c7PageSel "<p>b</p>").2.2.1 "doc1_id"
        ⟨[.element .paragraph [.text "x" 0 []]], some 1⟩ 1
        (by decide) (by decide) (by decide)
      rw [h]
      decide⟩

/-- C8: with the tool list `"bold italic undo redo"` exactly the undo,
redo, bold and italic controls render (in toolbar order); every
rendered control comes from the recognized set; and a token outside the
recognized set contributes no control (and the dispatch is a total
function — nothing throws). -/
theorem c8_toolbar_tokens :
    renderedControls "bold italic undo redo" =
        ["undo", "redo", "bold", "italic"]
      ∧ (∀ (s : String) (c : String), c ∈ renderedControls s →
          c ∈ recognizedControls)
      ∧ (∀ (ts1 ts2 : List String) (t : String), t ∉ recognizedControls →
          renderedControlsOf (ts1 ++ t :: ts2) =
            renderedControlsOf (ts1 ++ ts2)) := by
  refine ⟨by decide, ?_, ?_⟩
  · intro s c hc
    simp only [renderedControls, renderedControlsOf,
      List.mem_filter] at hc
    exact hc.1
  · intro ts1 ts2 t ht
    unfold renderedControlsOf
    apply List.filter_congr
    intro c hcr
    have hne : t ≠ c := fun he => ht (he ▸ hcr)
    have hcf : ¬ (c = t) := fun he => hne he.symm
    have : ∀ l1 l2 : List String,
        (l1 ++ t :: l2).contains c = (l1 ++ l2).contains c := by
      intro l1 l2
      induction l1 with
      | nil => simp [List.contains_cons, hcf]
      | cons x xs ih => simp [List.contains_cons, ih, hcf]
    rw [this]

theorem c8_toolbar_tokens_witness :
    ("wavy" ∉ recognizedControls)
      ∧ renderedControlsOf (["bold"] ++ "wavy" :: ["undo"]) =
        renderedControlsOf (["bold"] ++ ["undo"]) :=
  ⟨by decide,
    c8_toolbar_tokens.2.2 ["bold"] ["undo"] "wavy" (by decide)⟩

/-- The C9 probe: an `editorsizing` attribute with a raw newline inside
a JSON string value. -/
def c9Sizing : String := "\x7b\"minHeight\": \"2\n0px\"\x7d"

/-- C9 (counterexample): the claim says every JSON-bearing parameter's
attribute text is escaped before parsing, so raw control characters in
string values are tolerated.  For the sizing attribute no escaping
happens: the raw parse fails on the embedded newline and the component
falls back to the default sizing with a log — even though the sanitized
text would have parsed (as the documents parameter shows). -/
theorem c9_sizing_not_escaped :
    jsonParse c9Sizing = none
      ∧ jsonParse (sanitizeDocsAttr c9Sizing) =
        some (.obj [("minHeight", .str "2\n0px")])
      ∧ (connectedCallbackParams none (some c9Sizing) none).editorSizing
        = defaultSizing
      ∧ (connectedCallbackParams none (some c9Sizing) none).logs =
        ["Error parsing editorsizing:"] := by
  decide

/-- C9 (amended): only the documents attribute is escaped before
`JSON.parse` (raw newlines/CRs/tabs in its string values are
tolerated); the sizing and spellcheck attributes are parsed raw, so
such control characters make the parse fail — recovered per-parameter
by falling back to that parameter's default with a log, and a failure
in one attribute never affects the others. -/
theorem c9_param_parsing (d sz sp : Option String) :
    (∀ a v, d = some a → jsonParse (sanitizeDocsAttr a) = some v →
        (connectedCallbackParams d sz sp).documents = v)
      ∧ (∀ a, sz = some a → jsonParse a = none →
          (connectedCallbackParams d sz sp).editorSizing = defaultSizing
            ∧ "Error parsing editorsizing:" ∈
              (connectedCallbackParams d sz sp).logs)
      ∧ (∀ a, sp = some a → jsonParse a = none →
          (connectedCallbackParams d sz sp).spellCheckCallback = none
            ∧ "Error parsing objspellcheckcallback:" ∈
              (connectedCallbackParams d sz sp).logs)
      ∧ (∀ sz' sp', (connectedCallbackParams d sz sp).documents =
          (connectedCallbackParams d sz' sp').documents)
      ∧ (∀ d' sp', (connectedCallbackParams d sz sp).editorSizing =
          (connectedCallbackParams d' sz sp').editorSizing) := by
  refine ⟨?_, ?_, ?_, fun _ _ => rfl, fun _ _ => rfl⟩
  · intro a v hd hp
    simp [connectedCallbackParams, docsParam, hd, hp]
  · intro a hsz hp
    simp [connectedCallbackParams, sizingParam, hsz, hp]
  · intro a hsp hp
    simp [connectedCallbackParams, spellParam, hsp, hp]

/-- A documents attribute whose `body` value carries a raw newline. -/
def c9Docs : String := "[\x7b\"name\": \"f\", \"body\": \"a\nb\"\x7d]"

/-- The expected parse of the sanitized documents attribute. -/
def c9DocsVal : JsonVal :=
  .arr [.obj [("name", .str "f"), ("body", .str "a\nb")]]

theorem c9_param_parsing_witness :
    jsonParse (sanitizeDocsAttr c9Docs) = some c9DocsVal
      ∧ jsonParse c9Sizing = none
      ∧ (connectedCallbackParams (some c9Docs) (some c9Sizing)
          none).documents = c9DocsVal
      ∧ ((connectedCallbackParams (some c9Docs) (some c9Sizing)
            none).editorSizing = defaultSizing
          ∧ "Error parsing editorsizing:" ∈
            (connectedCallbackParams (some c9Docs) (some c9Sizing)
              none).logs) :=
  ⟨by decide, by decide,
    (c9_param_parsing (some c9Docs) (some c9Sizing) none).1 c9Docs
      c9DocsVal rfl (by decide),
    (c9_param_parsing (some c9Docs) (some c9Sizing) none).2.1 c9Sizing
      rfl (by decide)⟩

/-- C10 (counterexample): the claim says JSON serialization round-trips
exactly for every StyleSheetNode.  For a node whose stored string is
empty it does not: JS `||` treats the empty string as falsy, so
`importJSON` takes the legacy fallback and produces `<style></style>`
instead of the original empty string. -/
theorem c10_empty_string_not_roundtrip :
    styleSheetImportJSON (styleSheetExportJSON "") = "<style></style>"
      ∧ styleSheetImportJSON (styleSheetExportJSON "") ≠ "" := by
  decide

/-- C10 (amended): for every StyleSheetNode whose stored style
outerHTML string is non-empty, `importJSON(exportJSON(n))` restores
exactly that string; a serialized record with an absent (or empty)
`styleOuterHtml` falls back to `"<style>" + styleContent + "</style>"`,
with a missing `styleContent` treated as the empty string. -/
theorem c10_styleSheet_json (s : String) (h : s ≠ "") :
    styleSheetImportJSON (styleSheetExportJSON s) = s
      ∧ (∀ c : String, styleSheetImportJSON ⟨none, some c⟩ =
          "<style>" ++ c ++ "</style>")
      ∧ styleSheetImportJSON ⟨none, none⟩ = "<style></style>" := by
  refine ⟨?_, ?_, by decide⟩
  · simp [styleSheetImportJSON, styleSheetExportJSON, orElseStr,
      strTruthy, h]
  · intro c
    by_cases hc : c = "" <;>
      simp [styleSheetImportJSON, orElseStr, strTruthy, hc]

theorem c10_styleSheet_json_witness :
    ("<style media=\"print\">.x\x7b\x7d</style>" : String) ≠ ""
      ∧ styleSheetImportJSON
          (styleSheetExportJSON "<style media=\"print\">.x\x7b\x7d</style>")
        = "<style media=\"print\">.x\x7b\x7d</style>" :=
  ⟨by decide,
    (c10_styleSheet_json "<style media=\"print\">.x\x7b\x7d</style>"
      (by decide)).1⟩

end LexicalComponent
